import Mathlib

/-!
A shallow embedding of the Compute Unit state-evaluation engine
(`src/servers/cu/src/domain/lib/readState/evaluate.js`) and proofs about it.

Modelling conventions:
* JavaScript values are `JSVal`: undefined, null, booleans, integers, strings
  and objects (ordered association lists of own enumerable properties).
* The hyper-async accumulator threaded through ramda's `reduce` is always in
  the `Resolved` arm at step boundaries (the trailing `bichain` resolves both
  arms), so the accumulator is modelled as a plain `JSVal`; ramda's
  `reduced(x)` is modelled as ramda's `_reduced` implements it: it returns `x`
  unchanged when `x` already owns a truthy `'@@transducer/reduced'` key, and
  otherwise builds the literal wrapper
  `{'@@transducer/reduced': true, '@@transducer/value': x}`;
  `maybeReducedError`'s property check is modelled verbatim.
* The handler produced by `AoLoader(ctx.src)` is a function that either
  returns an output value or throws (`Except.error`); `AoLoader` itself is an
  external import, passed as the `loader` parameter.
* `saveEvaluation` (wrapped by `saveEvaluationSchema.implement` from
  `dal.js`, which is outside the embedded file) is the injected `save`
  function: it either resolves (`Except.ok`) or rejects (`Except.error`).
* `new Date()` is modelled as an integer timestamp drawn from a clock
  `now : Nat → Int` indexed by the number of `saveEvaluation` calls made so
  far; `logger.tap` is an identity side effect and is omitted.
-/

namespace AoCu

/-- JavaScript values as manipulated by the evaluator. Objects are ordered
lists of own enumerable properties, as JavaScript object literals are. -/
inductive JSVal where
  | vundefined : JSVal
  | vnull : JSVal
  | vbool : Bool → JSVal
  | vnum : Int → JSVal
  | vstr : String → JSVal
  | vobj : List (String × JSVal) → JSVal

/-- First binding of a key in a property list (JS objects have unique keys,
so first = only). -/
def lookupField : List (String × JSVal) → String → Option JSVal
  | [], _ => none
  | (k, v) :: rest, key => if k = key then some v else lookupField rest key

/-- JavaScript property access `v[k]`: a missing property reads as
`undefined`, and property access on a primitive also yields `undefined`
for the property names used here. -/
def JSVal.getProp : JSVal → String → JSVal
  | .vobj fs, k => (lookupField fs k).getD .vundefined
  | _, _ => .vundefined

/-- Whether a value is an object owning property `k`. -/
def JSVal.hasOwn : JSVal → String → Bool
  | .vobj fs, k => (lookupField fs k).isSome
  | _, _ => false

/-- JavaScript truthiness. -/
def truthy : JSVal → Bool
  | .vundefined => false
  | .vnull => false
  | .vbool b => b
  | .vnum n => n != 0
  | .vstr s => s != ""
  | .vobj _ => true

/-- Setting key `k` in an object literal: if the key is already present its
value is overwritten in place (insertion order kept), otherwise the binding
is appended, exactly as successive keys of a JS object literal behave. -/
def objUpdate (fs : List (String × JSVal)) (k : String) (v : JSVal) :
    List (String × JSVal) :=
  if fs.any (fun p => decide (p.1 = k)) then
    fs.map (fun p => if p.1 = k then (k, v) else p)
  else fs ++ [(k, v)]

/-- Folding a list of bindings into a base object, later keys overwriting
earlier ones: the semantics of `{ ...base, ...more }` key order. -/
def objMerge (fs gs : List (String × JSVal)) : List (String × JSVal) :=
  gs.foldl (fun acc p => objUpdate acc p.1 p.2) fs

/-- Own enumerable properties contributed by `...v` in an object literal:
objects contribute their bindings, strings contribute index-keyed
characters, and other primitives contribute nothing. -/
def spreadFields : JSVal → List (String × JSVal)
  | .vobj fs => fs
  | .vstr s => s.toList.enum.map (fun p => (toString p.1, JSVal.vstr (String.mk [p.2])))
  | _ => []

/-- `{ state, ...output }` from the success branch of the step: default the
`state` key to the carried value, overwritten if `output` owns one. -/
def carryState (state output : JSVal) : JSVal :=
  .vobj (objMerge [("state", state)] (spreadFields output))

/-- The property ramda's `reduced` marks its wrapper with. -/
def reducedKey : String := "@@transducer/reduced"

/-- The property ramda's `reduced` stores the wrapped value under. -/
def valueKey : String := "@@transducer/value"

/-- ramda's `reduced(e)` sentinel object, as constructed by ramda. -/
def reducedVal (e : JSVal) : JSVal :=
  .vobj [(reducedKey, .vbool true), (valueKey, e)]

/-- The check `output && output['@@transducer/reduced']` performed by
`maybeReducedError` (and by ramda's `_reduced` guard). -/
def isReducedVal (v : JSVal) : Bool :=
  truthy v && truthy (v.getProp reducedKey)

/-- ramda's `reduced(x)` (its internal `_reduced`): a value that already owns
a truthy `@@transducer/reduced` key is returned unchanged; otherwise the
wrapper object is built around it. -/
def reduced (e : JSVal) : JSVal :=
  if isReducedVal e then e else reducedVal e

/-- A handler as produced by `AoLoader`: `handle(state, action, SWGlobal)`
either returns an output value or throws. -/
abbrev Handler := JSVal → JSVal → JSVal → Except JSVal JSVal

/-- The injected `saveEvaluation`: resolves with some value (discarded by
the engine) or rejects with an error value. -/
abbrev SaveFn := JSVal → Except JSVal JSVal

/-- One element of `ctx.actions` (see load-actions for the incoming shape). -/
structure Interaction where
  action : JSVal
  sortKey : JSVal
  SWGlobal : JSVal

/-- The fields of the incoming context read by `evaluateWith`. -/
structure Ctx where
  id : JSVal
  src : JSVal
  state : JSVal
  result : JSVal
  actions : List Interaction

/-- The context with its action list replaced (used to speak about prefixes
of an evaluation). -/
def withActions (ctx : Ctx) (l : List Interaction) : Ctx :=
  ⟨ctx.id, ctx.src, ctx.state, ctx.result, l⟩

/-- The reduction state: the resolved accumulator value, the records
successfully persisted so far, and every record passed to `saveEvaluation`
(successful or not), in order. -/
structure EvalState where
  acc : JSVal
  records : List JSVal
  saveCalls : List JSVal

/-- `assocPath(['result', 'error'], err, {})`: the output a thrown handler
error is converted into. -/
def mkErrOutput (err : JSVal) : JSVal :=
  .vobj [("result", .vobj [("error", err)])]

/-- Invoke the handler and capture a throw into `{ result: { error } }`
(the `bichain` that maps a thrown error to a `result.error`). -/
def stepOutput (handle : Handler) (state : JSVal) (i : Interaction) : JSVal :=
  match handle state i.action i.SWGlobal with
  | .error err => mkErrOutput err
  | .ok out => out

/-- The failure test `output.result && output.result.error`. -/
def isErrorOutput (output : JSVal) : Bool :=
  truthy (output.getProp "result") && truthy ((output.getProp "result").getProp "error")

/-- The object passed to `cacheEvaluation`: `{ sortKey, parent: ctx.id,
action, output, cachedAt: new Date() }`. -/
def mkRecord (sortKey parent action output : JSVal) (cachedAt : Int) : JSVal :=
  .vobj [("sortKey", sortKey), ("parent", parent), ("action", action),
    ("output", output), ("cachedAt", .vnum cachedAt)]

/-- One pass of the reducer body over `$output` for one interaction:
`maybeRejectError`, then `prop('state')`, handler invocation with throw
capture, the `result.error` test, the `{ state, ...output }` default, the
cache write, and the trailing `bichain` that re-resolves a rejection as
`reduced`. -/
def evalStep (handle : Handler) (save : SaveFn) (now : Nat → Int) (id : JSVal)
    (st : EvalState) (i : Interaction) : EvalState :=
  if isReducedVal st.acc then
    ⟨reduced (st.acc.getProp valueKey), st.records, st.saveCalls⟩
  else
    let state := st.acc.getProp "state"
    let output := stepOutput handle state i
    if isErrorOutput output then
      ⟨reduced output, st.records, st.saveCalls⟩
    else
      let output2 := carryState state output
      let record := mkRecord i.sortKey id i.action output2 (now st.saveCalls.length)
      match save record with
      | .error e => ⟨reduced e, st.records, st.saveCalls ++ [record]⟩
      | .ok _ => ⟨output2, st.records ++ [record], st.saveCalls ++ [record]⟩

/-- The initial accumulator `of({ state: ctx.state, result: ctx.result })`. -/
def initAcc (ctx : Ctx) : JSVal :=
  .vobj [("state", ctx.state), ("result", ctx.result)]

/-- The whole `reduce` over `ctx.actions`. -/
def evalFold (loader : JSVal → Handler) (save : SaveFn) (now : Nat → Int)
    (ctx : Ctx) : EvalState :=
  ctx.actions.foldl (evalStep (loader ctx.src) save now ctx.id) ⟨initAcc ctx, [], []⟩

/-- `maybeResolveError`: unwrap a `reduced` sentinel, otherwise pass the
value through. -/
def finalOutput (st : EvalState) : JSVal :=
  if isReducedVal st.acc then st.acc.getProp valueKey else st.acc

/-- `z.record(z.any())`: accepts exactly objects. -/
def isRecordObj : JSVal → Bool
  | .vobj _ => true
  | _ => false

/-- What an evaluation resolves with: the value assigned to `ctx.output`,
and the records persisted along the way. -/
structure EvalResult where
  output : JSVal
  records : List JSVal

/-- `evaluateWith(env)(ctx)`: run the fold, unwrap a possible `reduced`
sentinel, assign the result as `ctx.output` and validate it against
`ctxSchema` (whose `output` field must be an object); a validation failure
is a thrown `ZodError`, i.e. a rejection. -/
def evaluateWith (loader : JSVal → Handler) (save : SaveFn) (now : Nat → Int)
    (ctx : Ctx) : Except JSVal EvalResult :=
  let st := evalFold loader save now ctx
  let out := finalOutput st
  if isRecordObj out then .ok ⟨out, st.records⟩ else .error (.vstr "ZodError")

/-- Key list of an object value. -/
def fieldNames : JSVal → List String
  | .vobj fs => fs.map Prod.fst
  | _ => []

/-- Drop the `cachedAt` field of a record, for comparing evaluation records
up to their one wall-clock field. -/
def eraseCachedAt : JSVal → JSVal
  | .vobj fs => .vobj (fs.filter (fun p => p.1 != "cachedAt"))
  | v => v

/-- An evaluation result with every record's `cachedAt` field erased. -/
def resultModTime (r : Except JSVal EvalResult) : Except JSVal (JSVal × List JSVal) :=
  r.map (fun er => (er.output, er.records.map eraseCachedAt))

/-! Concrete instances used to exhibit witnesses and counterexamples. -/

/-- A cache save that always resolves. -/
def cSave : SaveFn := fun _ => Except.ok JSVal.vundefined

/-- A cache save that always rejects, with an object as rejection value. -/
def failSave : SaveFn := fun _ => Except.error (JSVal.vobj [("boom", JSVal.vnum 1)])

/-- A clock that always reads 0. -/
def cNow : Nat → Int := fun _ => 0

/-- A clock that always reads 1. -/
def cNow2 : Nat → Int := fun _ => 1

/-- A sample interaction. -/
def cAction : Interaction :=
  ⟨JSVal.vobj [("type", JSVal.vstr "inc")], JSVal.vstr "0001", JSVal.vundefined⟩

/-- A sample context with starting state `{n: 0}`, empty starting result and
the given interactions. -/
def baseCtx (l : List Interaction) : Ctx :=
  ⟨JSVal.vstr "proc-1", JSVal.vstr "src", JSVal.vobj [("n", JSVal.vnum 0)],
    JSVal.vobj [], l⟩

/-- A loader whose handler always returns `{state: {n: 1}}`. -/
def incLoader : JSVal → Handler :=
  fun _ => fun _ _ _ => Except.ok (JSVal.vobj [("state", JSVal.vobj [("n", JSVal.vnum 1)])])

/-- A loader whose handler always returns `{result: {error: "boom"}}`. -/
def boomLoader : JSVal → Handler :=
  fun _ => fun _ _ _ => Except.ok (JSVal.vobj [("result", JSVal.vobj [("error", JSVal.vstr "boom")])])

/-- A loader whose handler always returns `{state: null}`. -/
def nullStateLoader : JSVal → Handler :=
  fun _ => fun _ _ _ => Except.ok (JSVal.vobj [("state", JSVal.vnull)])

/-- A loader whose handler returns only messages, no `state` key. -/
def noStateLoader : JSVal → Handler :=
  fun _ => fun _ _ _ => Except.ok (JSVal.vobj [("messages", JSVal.vobj [])])

/-- A loader whose handler always throws `"trap"`. -/
def throwLoader : JSVal → Handler :=
  fun _ => fun _ _ _ => Except.error (JSVal.vstr "trap")

/-- A loader whose handler returns a successful output that happens to carry
ramda's `reduced` marker key. -/
def markerLoader : JSVal → Handler :=
  fun _ => fun _ _ _ => Except.ok (JSVal.vobj
    [(reducedKey, JSVal.vbool true), (valueKey, JSVal.vobj [("a", JSVal.vnum 1)])])

/-- A loader whose handler returns a FAILING output (truthy `result.error`)
that also carries ramda's `reduced` marker keys. -/
def markedErrLoader : JSVal → Handler :=
  fun _ => fun _ _ _ => Except.ok (JSVal.vobj
    [("result", JSVal.vobj [("error", JSVal.vstr "boom")]),
      (reducedKey, JSVal.vbool true), (valueKey, JSVal.vobj [("a", JSVal.vnum 1)])])

/-- A context with a non-empty starting `result` field and no interactions. -/
def ctxR7 : Ctx :=
  ⟨JSVal.vstr "proc-1", JSVal.vstr "src", JSVal.vstr "S0", JSVal.vnum 7, []⟩

/-! Lemmas on property lists. -/

theorem lookupField_append (fs gs : List (String × JSVal)) (k : String) :
    lookupField (fs ++ gs) k = (lookupField fs k).or (lookupField gs k) := by
  induction fs with
  | nil => rfl
  | cons p rest ih =>
    obtain ⟨k', v⟩ := p
    by_cases h : k' = k <;> simp [lookupField, h, ih]

theorem any_key_eq_isSome (fs : List (String × JSVal)) (k : String) :
    fs.any (fun p => decide (p.1 = k)) = (lookupField fs k).isSome := by
  induction fs with
  | nil => rfl
  | cons p rest ih =>
    obtain ⟨k', v⟩ := p
    by_cases h : k' = k <;> simp [lookupField, h, ih]

theorem lookupField_eq_none_iff (fs : List (String × JSVal)) (k : String) :
    lookupField fs k = none ↔ ∀ p ∈ fs, ¬(p.1 = k) := by
  induction fs with
  | nil => simp [lookupField]
  | cons p rest ih =>
    obtain ⟨k', v⟩ := p
    by_cases h : k' = k <;> simp [lookupField, h, ih]

theorem lookupField_cons (a : String) (b : JSVal) (rest : List (String × JSVal))
    (key : String) :
    lookupField ((a, b) :: rest) key = if a = key then some b else lookupField rest key := rfl

theorem lookupField_map_update (fs : List (String × JSVal)) (k k' : String) (v : JSVal) :
    lookupField (fs.map (fun p => if p.1 = k then (k, v) else p)) k' =
      if k' = k then (lookupField fs k).map (fun _ => v) else lookupField fs k' := by
  induction fs with
  | nil => by_cases h : k' = k <;> simp [lookupField, h]
  | cons p rest ih =>
    obtain ⟨k₀, v₀⟩ := p
    rw [List.map_cons]
    by_cases h0 : k₀ = k
    · subst h0
      have hg : (if (k₀, v₀).1 = k₀ then (k₀, v) else (k₀, v₀)) = (k₀, v) := if_pos rfl
      rw [hg, lookupField_cons, lookupField_cons, lookupField_cons, ih]
      by_cases h1 : k' = k₀
      · subst h1
        simp
      · have h1' : ¬(k₀ = k') := fun h => h1 h.symm
        simp [h1, h1']
    · have hg : (if (k₀, v₀).1 = k then (k, v) else (k₀, v₀)) = (k₀, v₀) := if_neg h0
      rw [hg, lookupField_cons, lookupField_cons, lookupField_cons, ih]
      by_cases h1 : k' = k
      · by_cases h2 : k₀ = k'
        · exact absurd (h2.trans h1) h0
        · simp [h0, h1, h2]
      · by_cases h2 : k₀ = k' <;> simp [h0, h1, h2]

theorem lookupField_objUpdate (fs : List (String × JSVal)) (k k' : String) (v : JSVal) :
    lookupField (objUpdate fs k v) k' = if k' = k then some v else lookupField fs k' := by
  unfold objUpdate
  by_cases hany : fs.any (fun p => decide (p.1 = k))
  · rw [if_pos hany, lookupField_map_update]
    by_cases h : k' = k
    · rw [any_key_eq_isSome] at hany
      obtain ⟨u, hu⟩ := Option.isSome_iff_exists.mp hany
      simp [h, hu]
    · simp [h]
  · rw [if_neg hany, lookupField_append]
    have hnone : lookupField fs k = none := by
      rw [any_key_eq_isSome] at hany
      exact Option.not_isSome_iff_eq_none.mp (by simpa using hany)
    by_cases h : k' = k
    · subst h
      simp [hnone, lookupField]
    · have h' : ¬(k = k') := fun hh => h hh.symm
      rw [lookupField_cons, if_neg h', if_neg h]
      cases lookupField fs k' <;> rfl

theorem lookupField_objMerge_of_not_mem (fs gs : List (String × JSVal)) (k : String)
    (h : ∀ p ∈ gs, ¬(p.1 = k)) :
    lookupField (objMerge fs gs) k = lookupField fs k := by
  induction gs generalizing fs with
  | nil => rfl
  | cons p rest ih =>
    have hp : ¬(p.1 = k) := h p (by simp)
    have hrest : ∀ q ∈ rest, ¬(q.1 = k) := fun q hq => h q (by simp [hq])
    show lookupField (objMerge (objUpdate fs p.1 p.2) rest) k = lookupField fs k
    rw [ih (objUpdate fs p.1 p.2) hrest, lookupField_objUpdate,
      if_neg (fun hk => hp hk.symm)]

theorem lookupField_objMerge_isSome (fs gs : List (String × JSVal)) (k : String)
    (h : (lookupField fs k).isSome) :
    (lookupField (objMerge fs gs) k).isSome := by
  induction gs generalizing fs with
  | nil => exact h
  | cons p rest ih =>
    show (lookupField (objMerge (objUpdate fs p.1 p.2) rest) k).isSome
    refine ih (objUpdate fs p.1 p.2) ?_
    rw [lookupField_objUpdate]
    by_cases hk : k = p.1 <;> simp [hk, h]

theorem lookupField_objMerge_of_nodup (gs : List (String × JSVal)) (k : String) :
    ∀ fs, (gs.map Prod.fst).Nodup → (lookupField gs k).isSome →
      lookupField (objMerge fs gs) k = lookupField gs k := by
  induction gs with
  | nil => intro fs _ h; simp [lookupField] at h
  | cons p rest ih =>
    obtain ⟨k₀, v₀⟩ := p
    intro fs hnd h
    simp only [List.map_cons, List.nodup_cons] at hnd
    by_cases hk : k₀ = k
    · subst hk
      have hrest : ∀ q ∈ rest, ¬(q.1 = k₀) := by
        intro q hq hqk
        exact hnd.1 (hqk ▸ List.mem_map_of_mem Prod.fst hq)
      show lookupField (objMerge (objUpdate fs k₀ v₀) rest) k₀ = _
      rw [lookupField_objMerge_of_not_mem _ _ _ hrest, lookupField_objUpdate, if_pos rfl]
      simp [lookupField]
    · have h' : (lookupField rest k).isSome := by
        simpa [lookupField, hk] using h
      show lookupField (objMerge (objUpdate fs k₀ v₀) rest) k = _
      rw [ih (objUpdate fs k₀ v₀) hnd.2 h']
      simp [lookupField, hk]

/-! Lemmas on `carryState`. -/

theorem hasOwn_carryState (s out : JSVal) :
    (carryState s out).hasOwn "state" = true := by
  show (lookupField (objMerge [("state", s)] (spreadFields out)) "state").isSome = true
  simpa using lookupField_objMerge_isSome [("state", s)] (spreadFields out) "state"
    (by simp [lookupField])

theorem getProp_carryState_absent (s : JSVal) (fs : List (String × JSVal))
    (h : lookupField fs "state" = none) :
    (carryState s (.vobj fs)).getProp "state" = s := by
  show (lookupField (objMerge [("state", s)] fs) "state").getD .vundefined = s
  rw [lookupField_objMerge_of_not_mem _ _ _ ((lookupField_eq_none_iff fs "state").mp h)]
  simp [lookupField]

theorem getProp_carryState_present (s : JSVal) (fs : List (String × JSVal))
    (hnd : (fs.map Prod.fst).Nodup) (h : (lookupField fs "state").isSome) :
    (carryState s (.vobj fs)).getProp "state" = (JSVal.vobj fs).getProp "state" := by
  show (lookupField (objMerge [("state", s)] fs) "state").getD .vundefined =
    (lookupField fs "state").getD .vundefined
  rw [lookupField_objMerge_of_nodup fs "state" [("state", s)] hnd h]

/-! Lemmas on the `reduced` sentinel and the fold. -/

theorem isReducedVal_reducedVal (e : JSVal) : isReducedVal (reducedVal e) = true := rfl

theorem getProp_reducedVal_value (e : JSVal) :
    (reducedVal e).getProp valueKey = e := rfl

theorem isReducedVal_reduced (e : JSVal) : isReducedVal (reduced e) = true := by
  unfold reduced
  by_cases h : isReducedVal e = true
  · rw [if_pos h]; exact h
  · rw [if_neg h]; exact isReducedVal_reducedVal e

theorem reduced_of_not_marked (e : JSVal) (h : isReducedVal e = false) :
    reduced e = reducedVal e := by
  unfold reduced
  rw [if_neg (by simp [h])]

theorem evalStep_marked (handle : Handler) (save : SaveFn) (now : Nat → Int)
    (id : JSVal) (st : EvalState) (i : Interaction)
    (h : isReducedVal st.acc = true) :
    evalStep handle save now id st i =
      ⟨reduced (st.acc.getProp valueKey), st.records, st.saveCalls⟩ := by
  unfold evalStep
  rw [if_pos h]

theorem foldl_marked (handle : Handler) (save : SaveFn) (now : Nat → Int) (id : JSVal) :
    ∀ (l : List Interaction) (st : EvalState), isReducedVal st.acc = true →
      (List.foldl (evalStep handle save now id) st l).records = st.records ∧
      (List.foldl (evalStep handle save now id) st l).saveCalls = st.saveCalls ∧
      isReducedVal (List.foldl (evalStep handle save now id) st l).acc = true := by
  intro l
  induction l with
  | nil => intro st h; exact ⟨rfl, rfl, h⟩
  | cons i l ih =>
    intro st h
    rw [List.foldl_cons, evalStep_marked handle save now id st i h]
    exact ih ⟨reduced (st.acc.getProp valueKey), st.records, st.saveCalls⟩
      (isReducedVal_reduced _)

theorem evalStep_reducedVal_fix (handle : Handler) (save : SaveFn) (now : Nat → Int)
    (id e : JSVal) (recs calls : List JSVal) (i : Interaction)
    (h : isReducedVal e = false) :
    evalStep handle save now id ⟨reducedVal e, recs, calls⟩ i = ⟨reducedVal e, recs, calls⟩ := by
  rw [evalStep_marked handle save now id ⟨reducedVal e, recs, calls⟩ i
    (isReducedVal_reducedVal e)]
  show (⟨reduced e, recs, calls⟩ : EvalState) = ⟨reducedVal e, recs, calls⟩
  rw [reduced_of_not_marked e h]

theorem foldl_evalStep_reduced (handle : Handler) (save : SaveFn) (now : Nat → Int)
    (id e : JSVal) (recs calls : List JSVal) (l : List Interaction)
    (h : isReducedVal e = false) :
    List.foldl (evalStep handle save now id) ⟨reducedVal e, recs, calls⟩ l =
      ⟨reducedVal e, recs, calls⟩ := by
  induction l with
  | nil => rfl
  | cons i l ih =>
    rw [List.foldl_cons, evalStep_reducedVal_fix handle save now id e recs calls i h]
    exact ih

theorem evalFold_append (loader : JSVal → Handler) (save : SaveFn) (now : Nat → Int)
    (ctx : Ctx) (pre post : List Interaction) (a : Interaction)
    (hact : ctx.actions = pre ++ a :: post) :
    evalFold loader save now ctx =
      List.foldl (evalStep (loader ctx.src) save now ctx.id)
        (evalStep (loader ctx.src) save now ctx.id
          (evalFold loader save now (withActions ctx pre)) a) post := by
  have hpre : evalFold loader save now (withActions ctx pre) =
      List.foldl (evalStep (loader ctx.src) save now ctx.id) ⟨initAcc ctx, [], []⟩ pre := rfl
  show ctx.actions.foldl (evalStep (loader ctx.src) save now ctx.id) ⟨initAcc ctx, [], []⟩ = _
  rw [hact, List.foldl_append, List.foldl_cons, ← hpre]

theorem evalFold_append_halt (loader : JSVal → Handler) (save : SaveFn) (now : Nat → Int)
    (ctx : Ctx) (pre post : List Interaction) (a : Interaction) (e : JSVal)
    (recs calls : List JSVal)
    (hnm : isReducedVal e = false)
    (hact : ctx.actions = pre ++ a :: post)
    (hstep : evalStep (loader ctx.src) save now ctx.id
      (evalFold loader save now (withActions ctx pre)) a = ⟨reducedVal e, recs, calls⟩) :
    evalFold loader save now ctx = ⟨reducedVal e, recs, calls⟩ := by
  rw [evalFold_append loader save now ctx pre post a hact, hstep,
    foldl_evalStep_reduced (loader ctx.src) save now ctx.id e recs calls post hnm]

theorem isRecordObj_of_isErrorOutput (out : JSVal) (h : isErrorOutput out = true) :
    isRecordObj out = true := by
  cases out <;> simp_all [isErrorOutput, JSVal.getProp, truthy, isRecordObj]

/-! Lemmas for determinism up to `cachedAt`. -/

theorem eraseCachedAt_mkRecord (sk p a o : JSVal) (t : Int) :
    eraseCachedAt (mkRecord sk p a o t) =
      .vobj [("sortKey", sk), ("parent", p), ("action", a), ("output", o)] := rfl

theorem evalStep_modTime (handle : Handler) (save : SaveFn) (now₁ now₂ : Nat → Int)
    (id : JSVal)
    (hsave : ∀ sk p a o t t', save (mkRecord sk p a o t) = save (mkRecord sk p a o t'))
    (st₁ st₂ : EvalState) (i : Interaction)
    (hacc : st₁.acc = st₂.acc)
    (hrec : st₁.records.map eraseCachedAt = st₂.records.map eraseCachedAt)
    (hlen : st₁.saveCalls.length = st₂.saveCalls.length) :
    (evalStep handle save now₁ id st₁ i).acc = (evalStep handle save now₂ id st₂ i).acc ∧
    (evalStep handle save now₁ id st₁ i).records.map eraseCachedAt =
      (evalStep handle save now₂ id st₂ i).records.map eraseCachedAt ∧
    (evalStep handle save now₁ id st₁ i).saveCalls.length =
      (evalStep handle save now₂ id st₂ i).saveCalls.length := by
  obtain ⟨acc₁, recs₁, calls₁⟩ := st₁
  obtain ⟨acc₂, recs₂, calls₂⟩ := st₂
  simp only at hacc hrec hlen
  subst hacc
  unfold evalStep
  by_cases hr : isReducedVal acc₁ = true
  · simp [hr, hrec, hlen]
  · simp only [Bool.not_eq_true] at hr
    simp only [hr, Bool.false_eq_true, if_false]
    by_cases herr : isErrorOutput (stepOutput handle (acc₁.getProp "state") i) = true
    · simp [herr, hrec, hlen]
    · simp only [Bool.not_eq_true] at herr
      simp only [herr, Bool.false_eq_true, if_false, hlen]
      rw [hsave i.sortKey id i.action
        (carryState (acc₁.getProp "state") (stepOutput handle (acc₁.getProp "state") i))
        (now₁ calls₂.length) (now₂ calls₂.length)]
      rcases hs : save (mkRecord i.sortKey id i.action
          (carryState (acc₁.getProp "state") (stepOutput handle (acc₁.getProp "state") i))
          (now₂ calls₂.length)) with e | u
      · simp [hrec, hlen]
      · simp [hrec, hlen, eraseCachedAt_mkRecord]

theorem foldl_modTime (handle : Handler) (save : SaveFn) (now₁ now₂ : Nat → Int)
    (id : JSVal)
    (hsave : ∀ sk p a o t t', save (mkRecord sk p a o t) = save (mkRecord sk p a o t')) :
    ∀ (l : List Interaction) (st₁ st₂ : EvalState),
      st₁.acc = st₂.acc →
      st₁.records.map eraseCachedAt = st₂.records.map eraseCachedAt →
      st₁.saveCalls.length = st₂.saveCalls.length →
      (List.foldl (evalStep handle save now₁ id) st₁ l).acc =
        (List.foldl (evalStep handle save now₂ id) st₂ l).acc ∧
      (List.foldl (evalStep handle save now₁ id) st₁ l).records.map eraseCachedAt =
        (List.foldl (evalStep handle save now₂ id) st₂ l).records.map eraseCachedAt ∧
      (List.foldl (evalStep handle save now₁ id) st₁ l).saveCalls.length =
        (List.foldl (evalStep handle save now₂ id) st₂ l).saveCalls.length := by
  intro l
  induction l with
  | nil => intro st₁ st₂ h1 h2 h3; exact ⟨h1, h2, h3⟩
  | cons i l ih =>
    intro st₁ st₂ h1 h2 h3
    rw [List.foldl_cons, List.foldl_cons]
    obtain ⟨g1, g2, g3⟩ := evalStep_modTime handle save now₁ now₂ id hsave st₁ st₂ i h1 h2 h3
    exact ih _ _ g1 g2 g3

/-! Lemmas on the records passed to the cache. -/

theorem evalStep_saveCalls_sub (handle : Handler) (save : SaveFn) (now : Nat → Int)
    (id : JSVal) (st : EvalState) (i : Interaction) (r : JSVal)
    (h : r ∈ (evalStep handle save now id st i).saveCalls) :
    r ∈ st.saveCalls ∨ ∃ sk a s out t, r = mkRecord sk id a (carryState s out) t := by
  unfold evalStep at h
  by_cases hr : isReducedVal st.acc = true
  · rw [if_pos hr] at h
    exact Or.inl h
  · simp only [Bool.not_eq_true] at hr
    simp only [hr, Bool.false_eq_true, if_false] at h
    by_cases herr : isErrorOutput (stepOutput handle (st.acc.getProp "state") i) = true
    · rw [if_pos herr] at h
      exact Or.inl h
    · simp only [Bool.not_eq_true] at herr
      simp only [herr, Bool.false_eq_true, if_false] at h
      rcases hs : save (mkRecord i.sortKey id i.action
          (carryState (st.acc.getProp "state") (stepOutput handle (st.acc.getProp "state") i))
          (now st.saveCalls.length)) with e | u <;>
        rw [hs] at h <;>
        simp only [List.mem_append, List.mem_singleton] at h <;>
        rcases h with h | h
      · exact Or.inl h
      · exact Or.inr ⟨_, _, _, _, _, h⟩
      · exact Or.inl h
      · exact Or.inr ⟨_, _, _, _, _, h⟩

theorem mem_saveCalls_foldl (handle : Handler) (save : SaveFn) (now : Nat → Int)
    (id : JSVal) :
    ∀ (l : List Interaction) (st : EvalState) (r : JSVal),
      r ∈ (List.foldl (evalStep handle save now id) st l).saveCalls →
      r ∈ st.saveCalls ∨ ∃ sk a s out t, r = mkRecord sk id a (carryState s out) t := by
  intro l
  induction l with
  | nil => intro st r h; exact Or.inl h
  | cons i l ih =>
    intro st r h
    rw [List.foldl_cons] at h
    rcases ih (evalStep handle save now id st i) r h with hmem | hex
    · exact evalStep_saveCalls_sub handle save now id st i r hmem
    · exact Or.inr hex

/-- The record object built by the engine has exactly the field list
`sortKey, parent, action, output, cachedAt` and its `parent` field is the
given process id. -/
theorem mkRecord_shape (sk p a o : JSVal) (t : Int) :
    fieldNames (mkRecord sk p a o t) = ["sortKey", "parent", "action", "output", "cachedAt"] ∧
    (mkRecord sk p a o t).getProp "parent" = p ∧
    (mkRecord sk p a o t).hasOwn "processId" = false :=
  ⟨rfl, rfl, rfl⟩

/-! Shapes of a single step under each outcome, and the halting behaviour of
the whole evaluation. -/

theorem evalStep_error_halt (handle : Handler) (save : SaveFn) (now : Nat → Int)
    (id : JSVal) (st : EvalState) (i : Interaction)
    (hnr : isReducedVal st.acc = false)
    (herr : isErrorOutput (stepOutput handle (st.acc.getProp "state") i) = true) :
    evalStep handle save now id st i =
      ⟨reduced (stepOutput handle (st.acc.getProp "state") i),
        st.records, st.saveCalls⟩ := by
  unfold evalStep
  simp only [hnr, Bool.false_eq_true, if_false, herr, if_true]

theorem evalStep_saveFail_halt (handle : Handler) (save : SaveFn) (now : Nat → Int)
    (id : JSVal) (st : EvalState) (i : Interaction) (e : JSVal)
    (hnr : isReducedVal st.acc = false)
    (herr : isErrorOutput (stepOutput handle (st.acc.getProp "state") i) = false)
    (hs : save (mkRecord i.sortKey id i.action
      (carryState (st.acc.getProp "state") (stepOutput handle (st.acc.getProp "state") i))
      (now st.saveCalls.length)) = Except.error e) :
    evalStep handle save now id st i =
      ⟨reduced e, st.records,
        st.saveCalls ++ [mkRecord i.sortKey id i.action
          (carryState (st.acc.getProp "state") (stepOutput handle (st.acc.getProp "state") i))
          (now st.saveCalls.length)]⟩ := by
  unfold evalStep
  simp only [hnr, Bool.false_eq_true, if_false, herr, hs]

theorem evalStep_success (handle : Handler) (save : SaveFn) (now : Nat → Int)
    (id : JSVal) (st : EvalState) (i : Interaction) (u : JSVal)
    (hnr : isReducedVal st.acc = false)
    (herr : isErrorOutput (stepOutput handle (st.acc.getProp "state") i) = false)
    (hs : save (mkRecord i.sortKey id i.action
      (carryState (st.acc.getProp "state") (stepOutput handle (st.acc.getProp "state") i))
      (now st.saveCalls.length)) = Except.ok u) :
    evalStep handle save now id st i =
      ⟨carryState (st.acc.getProp "state") (stepOutput handle (st.acc.getProp "state") i),
        st.records ++ [mkRecord i.sortKey id i.action
          (carryState (st.acc.getProp "state") (stepOutput handle (st.acc.getProp "state") i))
          (now st.saveCalls.length)],
        st.saveCalls ++ [mkRecord i.sortKey id i.action
          (carryState (st.acc.getProp "state") (stepOutput handle (st.acc.getProp "state") i))
          (now st.saveCalls.length)]⟩ := by
  unfold evalStep
  simp only [hnr, Bool.false_eq_true, if_false, herr, hs]

theorem evaluateWith_halt (loader : JSVal → Handler) (save : SaveFn) (now : Nat → Int)
    (ctx : Ctx) (e : JSVal) (recs calls : List JSVal)
    (hfold : evalFold loader save now ctx = ⟨reducedVal e, recs, calls⟩)
    (hobj : isRecordObj e = true) :
    evaluateWith loader save now ctx = Except.ok ⟨e, recs⟩ := by
  unfold evaluateWith
  rw [hfold]
  have hfin : finalOutput ⟨reducedVal e, recs, calls⟩ = e := by
    unfold finalOutput
    rw [if_pos (isReducedVal_reducedVal e)]
    exact getProp_reducedVal_value e
  show (if isRecordObj (finalOutput (⟨reducedVal e, recs, calls⟩ : EvalState)) = true then
      Except.ok (⟨finalOutput (⟨reducedVal e, recs, calls⟩ : EvalState), recs⟩ : EvalResult)
    else Except.error (JSVal.vstr "ZodError")) = Except.ok (⟨e, recs⟩ : EvalResult)
  rw [hfin, if_pos hobj]

theorem isErrorOutput_mkErrOutput (err : JSVal) (h : truthy err = true) :
    isErrorOutput (mkErrOutput err) = true := by
  have hh : isErrorOutput (mkErrOutput err) = (true && truthy err) := rfl
  rw [hh, Bool.true_and, h]

/-! Lemmas for the state-presence invariant. -/

theorem evalStep_acc_hasOwn (handle : Handler) (save : SaveFn) (now : Nat → Int)
    (id : JSVal) (st : EvalState) (i : Interaction) :
    isReducedVal (evalStep handle save now id st i).acc = false →
      (evalStep handle save now id st i).acc.hasOwn "state" = true := by
  intro hnr
  unfold evalStep at hnr ⊢
  by_cases hr : isReducedVal st.acc = true
  · rw [if_pos hr] at hnr
    have h2 : isReducedVal (reduced (st.acc.getProp valueKey)) = false := hnr
    rw [isReducedVal_reduced] at h2
    exact Bool.noConfusion h2
  · simp only [Bool.not_eq_true] at hr
    simp only [hr, Bool.false_eq_true, if_false] at hnr ⊢
    by_cases herr : isErrorOutput (stepOutput handle (st.acc.getProp "state") i) = true
    · rw [if_pos herr] at hnr
      have h2 : isReducedVal (reduced (stepOutput handle (st.acc.getProp "state") i)) =
          false := hnr
      rw [isReducedVal_reduced] at h2
      exact Bool.noConfusion h2
    · simp only [Bool.not_eq_true] at herr
      simp only [herr, Bool.false_eq_true, if_false] at hnr ⊢
      rcases hs : save (mkRecord i.sortKey id i.action
          (carryState (st.acc.getProp "state") (stepOutput handle (st.acc.getProp "state") i))
          (now st.saveCalls.length)) with e | u
      · rw [hs] at hnr
        have h2 : isReducedVal (reduced e) = false := hnr
        rw [isReducedVal_reduced] at h2
        exact Bool.noConfusion h2
      · exact hasOwn_carryState _ _

theorem foldl_acc_hasOwn (handle : Handler) (save : SaveFn) (now : Nat → Int)
    (id : JSVal) :
    ∀ (l : List Interaction) (st : EvalState),
      (isReducedVal st.acc = false → st.acc.hasOwn "state" = true) →
      isReducedVal (List.foldl (evalStep handle save now id) st l).acc = false →
        (List.foldl (evalStep handle save now id) st l).acc.hasOwn "state" = true := by
  intro l
  induction l with
  | nil => intro st h; exact h
  | cons i l ih =>
    intro st h
    rw [List.foldl_cons]
    exact ih _ (evalStep_acc_hasOwn handle save now id st i)

theorem evaluateWith_eq (loader : JSVal → Handler) (save : SaveFn) (now : Nat → Int)
    (ctx : Ctx) :
    evaluateWith loader save now ctx =
      if isRecordObj (finalOutput (evalFold loader save now ctx)) = true then
        Except.ok ⟨finalOutput (evalFold loader save now ctx),
          (evalFold loader save now ctx).records⟩
      else Except.error (JSVal.vstr "ZodError") := rfl

/-! Claim theorems. -/

/-- C1, counterexample: on a one-interaction evaluation whose handler returns
`{result: {error: "boom"}}`, the engine persists ZERO records — the failing
step's record is not written to the cache (the cache save is never even
called), contradicting the claim that a failing step produces exactly one
persisted record that a subsequent read finds cached. -/
theorem c1_failing_step_record_cex :
    evaluateWith boomLoader cSave cNow (baseCtx [cAction]) =
      Except.ok ⟨JSVal.vobj [("result", JSVal.vobj [("error", JSVal.vstr "boom")])], []⟩ ∧
    (evalFold boomLoader cSave cNow (baseCtx [cAction])).saveCalls = [] :=
  ⟨rfl, rfl⟩

/-- C1, amended: a step whose handler traps or returns `result.error`
produces ZERO persisted evaluation records: the failing step's record is not
written to the cache before the reduction halts (the save is never called
for it), and zero further records or save calls follow in the same
evaluation, so a subsequent read will not find the failing step cached. -/
theorem c1_failing_step_writes_nothing (loader : JSVal → Handler) (save : SaveFn)
    (now : Nat → Int) (ctx : Ctx) (pre post : List Interaction) (a : Interaction)
    (hact : ctx.actions = pre ++ a :: post)
    (hnr : isReducedVal (evalFold loader save now (withActions ctx pre)).acc = false)
    (herr : isErrorOutput (stepOutput (loader ctx.src)
      ((evalFold loader save now (withActions ctx pre)).acc.getProp "state") a) = true) :
    (evalFold loader save now ctx).records =
      (evalFold loader save now (withActions ctx pre)).records ∧
    (evalFold loader save now ctx).saveCalls =
      (evalFold loader save now (withActions ctx pre)).saveCalls := by
  have hstep := evalStep_error_halt (loader ctx.src) save now ctx.id
    (evalFold loader save now (withActions ctx pre)) a hnr herr
  rw [evalFold_append loader save now ctx pre post a hact, hstep]
  have h := foldl_marked (loader ctx.src) save now ctx.id post
    ⟨reduced (stepOutput (loader ctx.src)
        ((evalFold loader save now (withActions ctx pre)).acc.getProp "state") a),
      (evalFold loader save now (withActions ctx pre)).records,
      (evalFold loader save now (withActions ctx pre)).saveCalls⟩
    (isReducedVal_reduced _)
  exact ⟨h.1, h.2.1⟩

/-- C1, witness for the amended theorem at a concrete failing evaluation. -/
theorem c1_failing_step_writes_nothing_witness :
    (baseCtx [cAction]).actions = [] ++ cAction :: [] ∧
    isReducedVal (evalFold boomLoader cSave cNow (withActions (baseCtx [cAction]) [])).acc
      = false ∧
    isErrorOutput (stepOutput (boomLoader (baseCtx [cAction]).src)
      ((evalFold boomLoader cSave cNow (withActions (baseCtx [cAction]) [])).acc.getProp
        "state") cAction) = true ∧
    (evalFold boomLoader cSave cNow (baseCtx [cAction])).records =
      (evalFold boomLoader cSave cNow (withActions (baseCtx [cAction]) [])).records :=
  ⟨rfl, rfl, rfl,
    (c1_failing_step_writes_nothing boomLoader cSave cNow (baseCtx [cAction])
      [] [] cAction rfl rfl rfl).1⟩

/-- C2, counterexample: a failing handler output that also carries ramda's
`@@transducer/reduced` marker keys. The step fails (the `result.error` test
is true), yet the evaluation's overall output is the marker's
`@@transducer/value` `{a: 1}` — NOT the failing step's output — because
ramda's guarded `reduced()` returns such a value unchanged and the final
`maybeResolveError` then unwraps it, contradicting the claim that the
evaluation always resolves with the failing step's output as its overall
output field. -/
theorem c2_marked_error_output_cex :
    isErrorOutput (JSVal.vobj
      [("result", JSVal.vobj [("error", JSVal.vstr "boom")]),
        (reducedKey, JSVal.vbool true), (valueKey, JSVal.vobj [("a", JSVal.vnum 1)])]) =
      true ∧
    evaluateWith markedErrLoader cSave cNow (baseCtx [cAction]) =
      Except.ok ⟨JSVal.vobj [("a", JSVal.vnum 1)], []⟩ ∧
    ¬(JSVal.vobj [("a", JSVal.vnum 1)] = JSVal.vobj
      [("result", JSVal.vobj [("error", JSVal.vstr "boom")]),
        (reducedKey, JSVal.vbool true), (valueKey, JSVal.vobj [("a", JSVal.vnum 1)])]) :=
  ⟨rfl, rfl, by simp⟩

/-- C2, amended: once a step fails (its computed output satisfies the
`output.result && output.result.error` test), the evaluation's result does
not depend on the remaining interactions `post` at all — no later handler is
invoked and no later record is persisted — and, provided the failing output
does not itself own a truthy `@@transducer/reduced` property, the evaluation
still resolves successfully (`Except.ok`) with the failing step's output as
its overall `output` field and only the prefix's records persisted. (A
failing output owning that marker is treated by ramda's guarded `reduced()`
as the halt sentinel itself, and the evaluation surfaces its
`@@transducer/value` instead.) -/
theorem c2_step_error_short_circuits (loader : JSVal → Handler) (save : SaveFn)
    (now : Nat → Int) (ctx : Ctx) (pre post : List Interaction) (a : Interaction)
    (hact : ctx.actions = pre ++ a :: post)
    (hnr : isReducedVal (evalFold loader save now (withActions ctx pre)).acc = false)
    (herr : isErrorOutput (stepOutput (loader ctx.src)
      ((evalFold loader save now (withActions ctx pre)).acc.getProp "state") a) = true)
    (hnm : isReducedVal (stepOutput (loader ctx.src)
      ((evalFold loader save now (withActions ctx pre)).acc.getProp "state") a) = false) :
    evaluateWith loader save now ctx =
      Except.ok ⟨stepOutput (loader ctx.src)
        ((evalFold loader save now (withActions ctx pre)).acc.getProp "state") a,
        (evalFold loader save now (withActions ctx pre)).records⟩ := by
  have hstep := evalStep_error_halt (loader ctx.src) save now ctx.id
    (evalFold loader save now (withActions ctx pre)) a hnr herr
  rw [reduced_of_not_marked _ hnm] at hstep
  have hfold := evalFold_append_halt loader save now ctx pre post a _ _ _ hnm hact hstep
  exact evaluateWith_halt loader save now ctx _ _ _ hfold
    (isRecordObj_of_isErrorOutput _ herr)

/-- C2, witness: the single failing interaction of `boomLoader` halts the
evaluation, which still resolves with the failure output. -/
theorem c2_step_error_short_circuits_witness :
    (baseCtx [cAction]).actions = [] ++ cAction :: [] ∧
    evaluateWith boomLoader cSave cNow (baseCtx [cAction]) =
      Except.ok ⟨stepOutput (boomLoader (baseCtx [cAction]).src)
        ((evalFold boomLoader cSave cNow (withActions (baseCtx [cAction]) [])).acc.getProp
          "state") cAction,
        (evalFold boomLoader cSave cNow (withActions (baseCtx [cAction]) [])).records⟩ :=
  ⟨rfl, c2_step_error_short_circuits boomLoader cSave cNow (baseCtx [cAction])
    [] [] cAction rfl rfl rfl rfl⟩

/-- C3: a thrown handler error `err` is converted into exactly
`{result: {error: err}}` (no other fields) and treated as the step's output;
and the throw is not propagated — at the point where such a step halts the
evaluation, the evaluation still resolves successfully (`Except.ok`) with
that converted value as its overall output. -/
theorem c3_throw_becomes_result_error :
    (∀ (handle : Handler) (s : JSVal) (i : Interaction) (err : JSVal),
      handle s i.action i.SWGlobal = Except.error err →
      stepOutput handle s i = JSVal.vobj [("result", JSVal.vobj [("error", err)])]) ∧
    (∀ (loader : JSVal → Handler) (save : SaveFn) (now : Nat → Int) (ctx : Ctx)
      (pre post : List Interaction) (a : Interaction) (err : JSVal),
      ctx.actions = pre ++ a :: post →
      isReducedVal (evalFold loader save now (withActions ctx pre)).acc = false →
      loader ctx.src ((evalFold loader save now (withActions ctx pre)).acc.getProp "state")
        a.action a.SWGlobal = Except.error err →
      truthy err = true →
      evaluateWith loader save now ctx =
        Except.ok ⟨mkErrOutput err,
          (evalFold loader save now (withActions ctx pre)).records⟩) := by
  constructor
  · intro handle s i err hthrow
    unfold stepOutput
    rw [hthrow]
    exact rfl
  · intro loader save now ctx pre post a err hact hnr hthrow htruthy
    have hout : stepOutput (loader ctx.src)
        ((evalFold loader save now (withActions ctx pre)).acc.getProp "state") a =
        mkErrOutput err := by
      unfold stepOutput
      rw [hthrow]
    have herr : isErrorOutput (stepOutput (loader ctx.src)
        ((evalFold loader save now (withActions ctx pre)).acc.getProp "state") a) = true := by
      rw [hout]
      exact isErrorOutput_mkErrOutput err htruthy
    have hnm : isReducedVal (mkErrOutput err) = false := rfl
    have hstep := evalStep_error_halt (loader ctx.src) save now ctx.id
      (evalFold loader save now (withActions ctx pre)) a hnr herr
    rw [hout, reduced_of_not_marked _ hnm] at hstep
    have hfold := evalFold_append_halt loader save now ctx pre post a _ _ _ hnm hact hstep
    exact evaluateWith_halt loader save now ctx _ _ _ hfold
      (isRecordObj_of_isErrorOutput _ (isErrorOutput_mkErrOutput err htruthy))

/-- C3, witness: a handler that throws `"trap"` at a concrete evaluation. -/
theorem c3_throw_becomes_result_error_witness :
    stepOutput (throwLoader (baseCtx [cAction]).src) (JSVal.vobj [("n", JSVal.vnum 0)])
      cAction = JSVal.vobj [("result", JSVal.vobj [("error", JSVal.vstr "trap")])] ∧
    evaluateWith throwLoader cSave cNow (baseCtx [cAction]) =
      Except.ok ⟨mkErrOutput (JSVal.vstr "trap"),
        (evalFold throwLoader cSave cNow (withActions (baseCtx [cAction]) [])).records⟩ :=
  ⟨c3_throw_becomes_result_error.1 (throwLoader (baseCtx [cAction]).src)
      (JSVal.vobj [("n", JSVal.vnum 0)]) cAction (JSVal.vstr "trap") rfl,
    c3_throw_becomes_result_error.2 throwLoader cSave cNow (baseCtx [cAction])
      [] [] cAction (JSVal.vstr "trap") rfl rfl rfl rfl⟩

/-- C4, counterexample: when the cache save rejects (here with the object
`{boom: 1}`), the evaluation is NOT aborted with an engine-level failure: it
resolves successfully (`Except.ok`) with the save's rejection value as its
overall output, contradicting the claim that a persistence failure does not
return a successful evaluation result to the caller. -/
theorem c4_save_failure_cex :
    evaluateWith incLoader failSave cNow (baseCtx [cAction]) =
      Except.ok ⟨JSVal.vobj [("boom", JSVal.vnum 1)], []⟩ :=
  rfl

/-- C4, amended: if persisting a step's record rejects with value `e` (an
object that does not itself own a truthy `@@transducer/reduced` property),
the evaluation does halt at this step — it does not advance to any later
interaction and persists nothing beyond the prefix — but instead of an
engine-level failure it still resolves successfully, with `e` as its overall
output. (A rejection value owning the marker is treated by ramda's guarded
`reduced()` as the halt sentinel itself, and the evaluation surfaces its
`@@transducer/value` instead.) -/
theorem c4_save_failure_halts_but_resolves (loader : JSVal → Handler) (save : SaveFn)
    (now : Nat → Int) (ctx : Ctx) (pre post : List Interaction) (a : Interaction)
    (e : JSVal)
    (hact : ctx.actions = pre ++ a :: post)
    (hnr : isReducedVal (evalFold loader save now (withActions ctx pre)).acc = false)
    (herr : isErrorOutput (stepOutput (loader ctx.src)
      ((evalFold loader save now (withActions ctx pre)).acc.getProp "state") a) = false)
    (hs : save (mkRecord a.sortKey ctx.id a.action
      (carryState ((evalFold loader save now (withActions ctx pre)).acc.getProp "state")
        (stepOutput (loader ctx.src)
          ((evalFold loader save now (withActions ctx pre)).acc.getProp "state") a))
      (now (evalFold loader save now (withActions ctx pre)).saveCalls.length)) =
      Except.error e)
    (hnm : isReducedVal e = false)
    (hobj : isRecordObj e = true) :
    evaluateWith loader save now ctx =
      Except.ok ⟨e, (evalFold loader save now (withActions ctx pre)).records⟩ := by
  have hstep := evalStep_saveFail_halt (loader ctx.src) save now ctx.id
    (evalFold loader save now (withActions ctx pre)) a e hnr herr hs
  rw [reduced_of_not_marked e hnm] at hstep
  have hfold := evalFold_append_halt loader save now ctx pre post a _ _ _ hnm hact hstep
  exact evaluateWith_halt loader save now ctx _ _ _ hfold hobj

/-- C4, witness for the amended theorem: a rejecting save at a concrete
evaluation. -/
theorem c4_save_failure_halts_but_resolves_witness :
    (baseCtx [cAction]).actions = [] ++ cAction :: [] ∧
    evaluateWith incLoader failSave cNow (baseCtx [cAction]) =
      Except.ok ⟨JSVal.vobj [("boom", JSVal.vnum 1)],
        (evalFold incLoader failSave cNow (withActions (baseCtx [cAction]) [])).records⟩ :=
  ⟨rfl, c4_save_failure_halts_but_resolves incLoader failSave cNow (baseCtx [cAction])
    [] [] cAction (JSVal.vobj [("boom", JSVal.vnum 1)]) rfl rfl rfl rfl rfl rfl⟩

/-- C5: for a successful step whose handler output object owns no `state`
property, the new accumulator equals `{state, ...output}` with the previous
state carried forward unchanged; that same object is the output threaded
onward and stored in the persisted record, and its `state` field equals the
carried-forward state. -/
theorem c5_state_carried_when_absent (handle : Handler) (save : SaveFn) (now : Nat → Int)
    (id : JSVal) (st : EvalState) (i : Interaction) (fs : List (String × JSVal)) (u : JSVal)
    (hnr : isReducedVal st.acc = false)
    (hout : stepOutput handle (st.acc.getProp "state") i = JSVal.vobj fs)
    (habs : (JSVal.vobj fs).hasOwn "state" = false)
    (herr : isErrorOutput (JSVal.vobj fs) = false)
    (hs : save (mkRecord i.sortKey id i.action
      (carryState (st.acc.getProp "state") (JSVal.vobj fs)) (now st.saveCalls.length)) =
      Except.ok u) :
    evalStep handle save now id st i =
      ⟨carryState (st.acc.getProp "state") (JSVal.vobj fs),
        st.records ++ [mkRecord i.sortKey id i.action
          (carryState (st.acc.getProp "state") (JSVal.vobj fs)) (now st.saveCalls.length)],
        st.saveCalls ++ [mkRecord i.sortKey id i.action
          (carryState (st.acc.getProp "state") (JSVal.vobj fs)) (now st.saveCalls.length)]⟩ ∧
    (carryState (st.acc.getProp "state") (JSVal.vobj fs)).getProp "state" =
      st.acc.getProp "state" ∧
    (carryState (st.acc.getProp "state") (JSVal.vobj fs)).hasOwn "state" = true := by
  have hlook : lookupField fs "state" = none := by
    have hh : (lookupField fs "state").isSome = false := by
      simpa [JSVal.hasOwn] using habs
    exact Option.not_isSome_iff_eq_none.mp (by simp [hh])
  have herr' : isErrorOutput (stepOutput handle (st.acc.getProp "state") i) = false := by
    rw [hout]; exact herr
  have hs' : save (mkRecord i.sortKey id i.action
      (carryState (st.acc.getProp "state") (stepOutput handle (st.acc.getProp "state") i))
      (now st.saveCalls.length)) = Except.ok u := by
    rw [hout]; exact hs
  have hstep := evalStep_success handle save now id st i u hnr herr' hs'
  rw [hout] at hstep
  exact ⟨hstep, getProp_carryState_absent _ fs hlook, hasOwn_carryState _ _⟩

/-- C5, witness: a handler returning only messages at a concrete step. -/
theorem c5_state_carried_when_absent_witness :
    isReducedVal (⟨initAcc (baseCtx [cAction]), [], []⟩ : EvalState).acc = false ∧
    (JSVal.vobj [("messages", JSVal.vobj [])]).hasOwn "state" = false ∧
    (carryState ((⟨initAcc (baseCtx [cAction]), [], []⟩ : EvalState).acc.getProp "state")
        (JSVal.vobj [("messages", JSVal.vobj [])])).getProp "state" =
      (⟨initAcc (baseCtx [cAction]), [], []⟩ : EvalState).acc.getProp "state" :=
  ⟨rfl, rfl, (c5_state_carried_when_absent (noStateLoader (JSVal.vstr "src")) cSave cNow
    (JSVal.vstr "proc-1") ⟨initAcc (baseCtx [cAction]), [], []⟩ cAction
    [("messages", JSVal.vobj [])] JSVal.vundefined rfl rfl rfl rfl rfl).2.1⟩

/-- C6, counterexample: with previous state `{n: 0}` and handler output
`{state: null}`, the engine's `{state, ...output}` spread makes the new
state `null` — the previous state is NOT carried forward, contradicting the
claimed `output.state ?? acc.state` nullish-coalescing semantics. -/
theorem c6_nullish_coalescing_cex :
    evaluateWith nullStateLoader cSave cNow (baseCtx [cAction]) =
      Except.ok ⟨JSVal.vobj [("state", JSVal.vnull)],
        [mkRecord (JSVal.vstr "0001") (JSVal.vstr "proc-1")
          (JSVal.vobj [("type", JSVal.vstr "inc")])
          (JSVal.vobj [("state", JSVal.vnull)]) 0]⟩ ∧
    ¬((baseCtx [cAction]).state = JSVal.vnull) :=
  ⟨rfl, fun h => JSVal.noConfusion h⟩

/-- C6, amended: for a successful step whose handler output is an object
(with distinct keys), the new accumulator state follows JavaScript spread
semantics: it is `output.state` whenever `output` OWNS a `state` property —
even one whose value is `null` or `undefined` — and only when the property
is absent is the previous state carried forward. -/
theorem c6_state_spread_semantics (handle : Handler) (save : SaveFn) (now : Nat → Int)
    (id : JSVal) (st : EvalState) (i : Interaction) (fs : List (String × JSVal)) (u : JSVal)
    (hnr : isReducedVal st.acc = false)
    (hout : stepOutput handle (st.acc.getProp "state") i = JSVal.vobj fs)
    (hnd : (fs.map Prod.fst).Nodup)
    (herr : isErrorOutput (JSVal.vobj fs) = false)
    (hs : save (mkRecord i.sortKey id i.action
      (carryState (st.acc.getProp "state") (JSVal.vobj fs)) (now st.saveCalls.length)) =
      Except.ok u) :
    (evalStep handle save now id st i).acc.getProp "state" =
      (if (JSVal.vobj fs).hasOwn "state" then (JSVal.vobj fs).getProp "state"
        else st.acc.getProp "state") := by
  have herr' : isErrorOutput (stepOutput handle (st.acc.getProp "state") i) = false := by
    rw [hout]; exact herr
  have hs' : save (mkRecord i.sortKey id i.action
      (carryState (st.acc.getProp "state") (stepOutput handle (st.acc.getProp "state") i))
      (now st.saveCalls.length)) = Except.ok u := by
    rw [hout]; exact hs
  have hstep := evalStep_success handle save now id st i u hnr herr' hs'
  rw [hout] at hstep
  rw [hstep]
  by_cases hown : (JSVal.vobj fs).hasOwn "state" = true
  · rw [if_pos hown]
    exact getProp_carryState_present _ fs hnd (by simpa [JSVal.hasOwn] using hown)
  · rw [if_neg hown]
    have hown2 : (JSVal.vobj fs).hasOwn "state" = false := by
      cases hb : (JSVal.vobj fs).hasOwn "state"
      · rfl
      · exact absurd hb hown
    have hown' : (lookupField fs "state").isSome = false := by
      simpa [JSVal.hasOwn] using hown2
    exact getProp_carryState_absent _ fs
      (Option.not_isSome_iff_eq_none.mp (by simp [hown']))

/-- C6, witness for the amended theorem: the `{state: null}` handler output
at a concrete step, whose owned (null) state wins over the previous state. -/
theorem c6_state_spread_semantics_witness :
    isReducedVal (⟨initAcc (baseCtx [cAction]), [], []⟩ : EvalState).acc = false ∧
    (evalStep (nullStateLoader (JSVal.vstr "src")) cSave cNow (JSVal.vstr "proc-1")
        ⟨initAcc (baseCtx [cAction]), [], []⟩ cAction).acc.getProp "state" =
      (if (JSVal.vobj [("state", JSVal.vnull)]).hasOwn "state" then
        (JSVal.vobj [("state", JSVal.vnull)]).getProp "state"
      else (⟨initAcc (baseCtx [cAction]), [], []⟩ : EvalState).acc.getProp "state") :=
  ⟨rfl, c6_state_spread_semantics (nullStateLoader (JSVal.vstr "src")) cSave cNow
    (JSVal.vstr "proc-1") ⟨initAcc (baseCtx [cAction]), [], []⟩ cAction
    [("state", JSVal.vnull)] JSVal.vundefined rfl rfl (by simp) rfl rfl⟩

/-- C7, counterexample: a context with empty interactions but a non-empty
starting `result` (here `7`) resolves with output
`{state: startState, result: 7}`, not the claimed `{state: startState,
result: {}}` — the engine seeds the accumulator with `ctx.result`, not with
an empty object. -/
theorem c7_empty_actions_cex :
    evaluateWith incLoader cSave cNow ctxR7 =
      Except.ok ⟨JSVal.vobj [("state", JSVal.vstr "S0"), ("result", JSVal.vnum 7)], []⟩ ∧
    ¬(JSVal.vobj [("state", JSVal.vstr "S0"), ("result", JSVal.vnum 7)] =
      JSVal.vobj [("state", JSVal.vstr "S0"), ("result", JSVal.vobj [])]) :=
  ⟨rfl, by simp⟩

/-- C7, amended: with an empty interaction list the evaluation resolves with
output exactly `{state: ctx.state, result: ctx.result}` (the starting
context's `result` carried through; this is `{state, result: {}}` precisely
when the caller passes `result = {}`), performs no cache writes and never
calls the cache. -/
theorem c7_empty_actions_output (loader : JSVal → Handler) (save : SaveFn)
    (now : Nat → Int) (ctx : Ctx) (hact : ctx.actions = []) :
    evaluateWith loader save now ctx =
      Except.ok ⟨JSVal.vobj [("state", ctx.state), ("result", ctx.result)], []⟩ ∧
    (evalFold loader save now ctx).saveCalls = [] := by
  obtain ⟨id, src, state, result, actions⟩ := ctx
  have hact' : actions = [] := hact
  subst hact'
  exact ⟨rfl, rfl⟩

/-- C7, witness: the empty-interaction evaluation of a concrete context. -/
theorem c7_empty_actions_output_witness :
    (baseCtx []).actions = [] ∧
    evaluateWith incLoader cSave cNow (baseCtx []) =
      Except.ok ⟨JSVal.vobj [("state", JSVal.vobj [("n", JSVal.vnum 0)]),
        ("result", JSVal.vobj [])], []⟩ :=
  ⟨rfl, (c7_empty_actions_output incLoader cSave cNow (baseCtx []) rfl).1⟩

/-- C8: for a fixed context, handler and cache whose save behaviour does not
depend on the record's `cachedAt` timestamp, two independent runs (differing
only in their clocks) produce the same overall outcome and output, and
identical sequences of persisted records in every field except `cachedAt`;
in particular the clock never influences any later step's computation. -/
theorem c8_determinism_mod_cachedAt (loader : JSVal → Handler) (save : SaveFn)
    (now₁ now₂ : Nat → Int) (ctx : Ctx)
    (hsave : ∀ sk p a o t t', save (mkRecord sk p a o t) = save (mkRecord sk p a o t')) :
    resultModTime (evaluateWith loader save now₁ ctx) =
      resultModTime (evaluateWith loader save now₂ ctx) := by
  have h := foldl_modTime (loader ctx.src) save now₁ now₂ ctx.id hsave ctx.actions
    ⟨initAcc ctx, [], []⟩ ⟨initAcc ctx, [], []⟩ rfl rfl rfl
  have hacc : (evalFold loader save now₁ ctx).acc = (evalFold loader save now₂ ctx).acc := h.1
  have hrec : (evalFold loader save now₁ ctx).records.map eraseCachedAt =
      (evalFold loader save now₂ ctx).records.map eraseCachedAt := h.2.1
  have hfin : finalOutput (evalFold loader save now₁ ctx) =
      finalOutput (evalFold loader save now₂ ctx) := by
    unfold finalOutput
    rw [hacc]
  rw [evaluateWith_eq loader save now₁ ctx, evaluateWith_eq loader save now₂ ctx, hfin]
  by_cases hro : isRecordObj (finalOutput (evalFold loader save now₂ ctx)) = true
  · rw [if_pos hro, if_pos hro]
    unfold resultModTime
    simp only [Except.map]
    rw [hrec]
  · rw [if_neg hro, if_neg hro]

/-- C8, witness: two runs of a concrete successful evaluation under clocks
reading 0 and 1 agree once `cachedAt` is erased. -/
theorem c8_determinism_mod_cachedAt_witness :
    (evaluateWith incLoader cSave cNow (baseCtx [cAction])).map
        (fun r => r.records.length) = Except.ok 1 ∧
    resultModTime (evaluateWith incLoader cSave cNow (baseCtx [cAction])) =
      resultModTime (evaluateWith incLoader cSave cNow2 (baseCtx [cAction])) :=
  ⟨rfl, c8_determinism_mod_cachedAt incLoader cSave cNow cNow2 (baseCtx [cAction])
    (fun _ _ _ _ _ _ => rfl)⟩

/-- C9, counterexample: the one record passed to the cache save on a
concrete successful evaluation has field list `sortKey, parent, action,
output, cachedAt` and NO `processId` field — the process id travels under
`parent` — contradicting the claimed `{processId, sortKey, action, output,
cachedAt}` shape. -/
theorem c9_record_fields_cex :
    (evalFold incLoader cSave cNow (baseCtx [cAction])).saveCalls.map fieldNames =
      [["sortKey", "parent", "action", "output", "cachedAt"]] ∧
    (evalFold incLoader cSave cNow (baseCtx [cAction])).saveCalls.map
      (fun r => r.hasOwn "processId") = [false] :=
  ⟨rfl, rfl⟩

/-- C9, amended: every record passed to the cache save operation has exactly
the shape `{sortKey, parent, action, output, cachedAt}`, where the `parent`
field (not a `processId` field, which is absent) identifies the process
being evaluated, i.e. equals `ctx.id`. -/
theorem c9_record_shape (loader : JSVal → Handler) (save : SaveFn) (now : Nat → Int)
    (ctx : Ctx) (r : JSVal)
    (hr : r ∈ (evalFold loader save now ctx).saveCalls) :
    fieldNames r = ["sortKey", "parent", "action", "output", "cachedAt"] ∧
    r.getProp "parent" = ctx.id ∧
    r.hasOwn "processId" = false := by
  rcases mem_saveCalls_foldl (loader ctx.src) save now ctx.id ctx.actions
      ⟨initAcc ctx, [], []⟩ r hr with hmem | ⟨sk, a, s, out, t, hre⟩
  · exact absurd hmem (List.not_mem_nil r)
  · subst hre
    exact mkRecord_shape sk ctx.id a (carryState s out) t

/-- C9, witness: the record saved by a concrete successful evaluation. -/
theorem c9_record_shape_witness :
    fieldNames (mkRecord (JSVal.vstr "0001") (JSVal.vstr "proc-1")
      (JSVal.vobj [("type", JSVal.vstr "inc")])
      (JSVal.vobj [("state", JSVal.vobj [("n", JSVal.vnum 1)])]) 0) =
      ["sortKey", "parent", "action", "output", "cachedAt"] ∧
    (mkRecord (JSVal.vstr "0001") (JSVal.vstr "proc-1")
      (JSVal.vobj [("type", JSVal.vstr "inc")])
      (JSVal.vobj [("state", JSVal.vobj [("n", JSVal.vnum 1)])]) 0).getProp "parent" =
      (baseCtx [cAction]).id ∧
    (mkRecord (JSVal.vstr "0001") (JSVal.vstr "proc-1")
      (JSVal.vobj [("type", JSVal.vstr "inc")])
      (JSVal.vobj [("state", JSVal.vobj [("n", JSVal.vnum 1)])]) 0).hasOwn "processId" =
      false :=
  c9_record_shape incLoader cSave cNow (baseCtx [cAction])
    (mkRecord (JSVal.vstr "0001") (JSVal.vstr "proc-1")
      (JSVal.vobj [("type", JSVal.vstr "inc")])
      (JSVal.vobj [("state", JSVal.vobj [("n", JSVal.vnum 1)])]) 0)
    (List.Mem.head _)

/-- C10, counterexample: a single-interaction evaluation whose only step
SUCCEEDS (one record is persisted, and that record's output owns `state`),
yet the overall output is `{a: 1}` with NO `state` field: the successful
handler output carried ramda's `@@transducer/reduced` marker, so the final
unwrap surfaced its `@@transducer/value` instead of the threaded output. -/
theorem c10_all_success_no_state_cex :
    evaluateWith markerLoader cSave cNow (baseCtx [cAction]) =
      Except.ok ⟨JSVal.vobj [("a", JSVal.vnum 1)],
        [mkRecord (JSVal.vstr "0001") (JSVal.vstr "proc-1")
          (JSVal.vobj [("type", JSVal.vstr "inc")])
          (JSVal.vobj [("state", JSVal.vobj [("n", JSVal.vnum 0)]),
            (reducedKey, JSVal.vbool true),
            (valueKey, JSVal.vobj [("a", JSVal.vnum 1)])]) 0]⟩ ∧
    (JSVal.vobj [("a", JSVal.vnum 1)]).hasOwn "state" = false :=
  ⟨rfl, rfl⟩

/-- C10, amended: after every successful step the accumulator output
threaded to the next step owns a `state` property, and the `output` field of
every record passed to the cache owns a `state` property; the overall output
of the evaluation owns `state` whenever the final accumulator does not carry
ramda's `@@transducer/reduced` marker — a successful output smuggling that
marker is unwrapped to its `@@transducer/value` by `maybeResolveError` and
may lack `state`. -/
theorem c10_threaded_output_has_state :
    (∀ (handle : Handler) (save : SaveFn) (now : Nat → Int) (id : JSVal)
      (st : EvalState) (i : Interaction),
      isReducedVal (evalStep handle save now id st i).acc = false →
      (evalStep handle save now id st i).acc.hasOwn "state" = true) ∧
    (∀ (loader : JSVal → Handler) (save : SaveFn) (now : Nat → Int) (ctx : Ctx)
      (r : JSVal),
      r ∈ (evalFold loader save now ctx).saveCalls →
      (r.getProp "output").hasOwn "state" = true) ∧
    (∀ (loader : JSVal → Handler) (save : SaveFn) (now : Nat → Int) (ctx : Ctx),
      isReducedVal (evalFold loader save now ctx).acc = false →
      (finalOutput (evalFold loader save now ctx)).hasOwn "state" = true) := by
  refine ⟨fun handle save now id st i => evalStep_acc_hasOwn handle save now id st i,
    ?_, ?_⟩
  · intro loader save now ctx r hr
    rcases mem_saveCalls_foldl (loader ctx.src) save now ctx.id ctx.actions
        ⟨initAcc ctx, [], []⟩ r hr with hmem | ⟨sk, a, s, out, t, hre⟩
    · exact absurd hmem (List.not_mem_nil r)
    · subst hre
      have hgp : (mkRecord sk ctx.id a (carryState s out) t).getProp "output" =
          carryState s out := rfl
      rw [hgp]
      exact hasOwn_carryState s out
  · intro loader save now ctx hnr
    have hbase : isReducedVal (⟨initAcc ctx, [], []⟩ : EvalState).acc = false →
        (⟨initAcc ctx, [], []⟩ : EvalState).acc.hasOwn "state" = true := fun _ => rfl
    have hinv := foldl_acc_hasOwn (loader ctx.src) save now ctx.id ctx.actions
      ⟨initAcc ctx, [], []⟩ hbase hnr
    unfold finalOutput
    rw [if_neg (by simp [hnr])]
    exact hinv

/-- C10, witness: the three parts of the amended statement at a concrete
successful evaluation. -/
theorem c10_threaded_output_has_state_witness :
    (evalStep (incLoader (JSVal.vstr "src")) cSave cNow (JSVal.vstr "proc-1")
      ⟨initAcc (baseCtx [cAction]), [], []⟩ cAction).acc.hasOwn "state" = true ∧
    ((mkRecord (JSVal.vstr "0001") (JSVal.vstr "proc-1")
      (JSVal.vobj [("type", JSVal.vstr "inc")])
      (JSVal.vobj [("state", JSVal.vobj [("n", JSVal.vnum 1)])]) 0).getProp
        "output").hasOwn "state" = true ∧
    (finalOutput (evalFold incLoader cSave cNow (baseCtx [cAction]))).hasOwn "state" =
      true :=
  ⟨c10_threaded_output_has_state.1 (incLoader (JSVal.vstr "src")) cSave cNow
      (JSVal.vstr "proc-1") ⟨initAcc (baseCtx [cAction]), [], []⟩ cAction rfl,
    c10_threaded_output_has_state.2.1 incLoader cSave cNow (baseCtx [cAction])
      (mkRecord (JSVal.vstr "0001") (JSVal.vstr "proc-1")
        (JSVal.vobj [("type", JSVal.vstr "inc")])
        (JSVal.vobj [("state", JSVal.vobj [("n", JSVal.vnum 1)])]) 0)
      (List.Mem.head _),
    c10_threaded_output_has_state.2.2 incLoader cSave cNow (baseCtx [cAction]) rfl⟩

end AoCu
